import Mathlib

/-!
Shallow embedding of `src/blender_audio_fft_v17.py` (System Audio FFT add-on).

The numeric pipeline (the per-block analysis of the audio loop and the
temporal-smoothing publish step) is modelled over the real numbers: the
Python code computes with IEEE doubles / float32, and the numeric statements
of the spec are phrased "within floating-point tolerance", so the exact-real
semantics is the intended idealisation.  Control flow (device selection,
operator `execute`, cleanup) is modelled as total functions over explicit
state records, with Python exceptions of the fallible primitives encoded as
Boolean failure flags on the state.
-/

namespace BlenderAudioFFT

/-- `SAMPLE_RATE = 44100` (module-level config constant). -/
def SAMPLE_RATE : ℕ := 44100

/-- `BLOCK_SIZE = 1024` (module-level config constant). -/
def BLOCK_SIZE : ℕ := 1024

/-- `N_BINS = 16` (module-level config constant). -/
def N_BINS : ℕ := 16

/-- Initial value of the shared vector: `_fft_data = [0.0] * N_BINS`. -/
def initFftData : List ℝ := List.replicate N_BINS (0 : ℝ)

/-!
## Smoothing & publish step (lines 148–154)

```
with _audio_lock:
    if any(_fft_data):  # If we have previous data
        alpha = 0.3  # Smoothing factor
        for i in range(min(len(binned), len(_fft_data))):
            _fft_data[i] = alpha * binned[i] + (1 - alpha) * _fft_data[i]
    else:
        _fft_data[:len(binned)] = binned.tolist()
```

`any(_fft_data)` is Python float truthiness: true iff some entry is nonzero.
The in-place loop writes `alpha*V[i] + (1-alpha)*P[i]` at each index
`i < min (len V) (len P)` and leaves the remaining entries of `P` unchanged;
as a list this is `zipWith` on the common length followed by the untouched
tail of `P`.  The slice assignment `P[:len(V)] = V` yields `V ++ P.drop V.length`.
-/

open Classical in
/-- Model of the publish step: previous published vector `P`, new analyzed
vector `V`. -/
noncomputable def publishStep (P V : List ℝ) : List ℝ :=
  if ∃ x ∈ P, x ≠ 0 then
    List.zipWith (fun v p => (0.3 : ℝ) * v + (1 - 0.3) * p) V P ++ P.drop V.length
  else
    V ++ P.drop V.length

/-- The invariant of the shared spectrum vector `_fft_data`: exactly
`N_BINS` entries, each in `[0, 1]`. -/
def fftInvariant (l : List ℝ) : Prop :=
  l.length = N_BINS ∧ ∀ x ∈ l, 0 ≤ x ∧ x ≤ 1

/-!
## Spectral analysis (lines 122–145)

```
samples = np.frombuffer(data, dtype=np.float32)
if len(samples) > 0:
    windowed = samples * np.hanning(len(samples))
    spectrum = np.abs(np.fft.rfft(windowed))
    if len(spectrum) <= N_BINS:
        binned = np.pad(spectrum, (0, N_BINS - len(spectrum)), constant)
    else:
        log_indices = np.logspace(0, np.log10(len(spectrum) - 1), N_BINS).astype(int)
        log_indices = np.unique(log_indices)
        if len(log_indices) < N_BINS:
            log_indices = np.linspace(0, len(spectrum) - 1, N_BINS).astype(int)
        binned = spectrum[log_indices[:N_BINS]]
    max_val = binned.max()
    if max_val > 0:
        binned = binned / max_val
        binned = np.power(binned, 0.6)
```
-/

/-- `np.hanning(M)`: the Hann window, entry `n` is
`0.5 - 0.5 * cos(2*pi*n / (M - 1))`. -/
noncomputable def npHanning (M : ℕ) : List ℝ :=
  (List.range M).map fun (n : ℕ) => 0.5 - 0.5 * Real.cos (2 * Real.pi * n / ((M : ℝ) - 1))

/-- `np.abs(np.fft.rfft(x))`: the half-spectrum of magnitudes of the real-input
DFT, of length `⌊len x / 2⌋ + 1`; coefficient `k` is
`|sum_m x[m] * exp(-2*pi*i*k*m/len x)|`. -/
noncomputable def rfftMag (x : List ℝ) : List ℝ :=
  (List.range (x.length / 2 + 1)).map fun (k : ℕ) =>
    Complex.abs (∑ m ∈ Finset.range x.length,
      (x.getD m 0 : ℂ) * Complex.exp (-(2 * Real.pi * k * m / x.length) * Complex.I))

/-- `.astype(int)` on a numpy float array entry: C-style truncation toward
zero.  Every value cast in this program (logspace outputs `≥ 1`, linspace
outputs `≥ 0`) is nonnegative, where truncation coincides with the floor. -/
noncomputable def npTruncNat (x : ℝ) : ℕ := ⌊x⌋₊

/-- `np.linspace(a, b, num)` (with the default endpoint): entry `k` is
`a + k * (b - a) / (num - 1)`. -/
noncomputable def npLinspace (a b : ℝ) (num : ℕ) : List ℝ :=
  (List.range num).map fun (k : ℕ) => a + k * (b - a) / ((num : ℝ) - 1)

/-- `np.logspace(a, b, num)` (default base 10): `10 ** np.linspace(a, b, num)`. -/
noncomputable def npLogspace (a b : ℝ) (num : ℕ) : List ℝ :=
  (npLinspace a b num).map fun e => (10 : ℝ) ^ e

/-- Insert into a sorted list of naturals, keeping it sorted. -/
def insertSorted (x : ℕ) : List ℕ → List ℕ
  | [] => [x]
  | y :: ys => if x ≤ y then x :: y :: ys else y :: insertSorted x ys

/-- Insertion sort on naturals (ascending). -/
def sortNat (l : List ℕ) : List ℕ := l.foldr insertSorted []

/-- `np.unique`: the sorted list of distinct values. -/
def npUnique (l : List ℕ) : List ℕ := (sortNat l).dedup

/-- `np.logspace(0, np.log10(len(spectrum) - 1), N_BINS).astype(int)`:
the raw (not yet deduplicated) log-spaced index positions for a half-spectrum
of length `slen`. -/
noncomputable def logIndicesRaw (slen : ℕ) : List ℕ :=
  (npLogspace 0 (Real.logb 10 ((slen : ℝ) - 1)) N_BINS).map npTruncNat

/-- `np.linspace(0, len(spectrum) - 1, N_BINS).astype(int)`: the linear
fallback index positions. -/
noncomputable def linIndices (slen : ℕ) : List ℕ :=
  (npLinspace 0 ((slen : ℝ) - 1) N_BINS).map npTruncNat

/-- The index list actually used for binning (lines 134–137): deduplicated
log-spaced indices, or the linear fallback when fewer than `N_BINS` unique
indices remain. -/
noncomputable def binIndices (slen : ℕ) : List ℕ :=
  let li := npUnique (logIndicesRaw slen)
  if li.length < N_BINS then linIndices slen else li

/-- `binned.max()` of the nonempty bin array; since every entry is a
nonnegative magnitude, folding `max` with base `0` equals the array maximum. -/
noncomputable def npMax (l : List ℝ) : ℝ := l.foldr max 0

/-- The per-block analysis (lines 126–145): window, magnitude half-spectrum,
logarithmic binning with linear fallback, max-normalization guarded against
silence, and perceptual compression `x ** 0.6`. -/
noncomputable def analyze (samples : List ℝ) : List ℝ :=
  let windowed := List.zipWith (· * ·) samples (npHanning samples.length)
  let spectrum := rfftMag windowed
  let binned :=
    if spectrum.length ≤ N_BINS then
      spectrum ++ List.replicate (N_BINS - spectrum.length) 0
    else
      ((binIndices spectrum.length).take N_BINS).map fun i => spectrum.getD i 0
  let maxVal := npMax binned
  if 0 < maxVal then
    (binned.map (· / maxVal)).map fun x => x ^ (0.6 : ℝ)
  else binned

/-! ### Basic structural lemmas about the analyzer -/

theorem npHanning_length (M : ℕ) : (npHanning M).length = M := by
  rw [npHanning, List.length_map, List.length_range]

theorem rfftMag_length (x : List ℝ) : (rfftMag x).length = x.length / 2 + 1 := by
  rw [rfftMag, List.length_map, List.length_range]

theorem rfftMag_nonneg (x : List ℝ) : ∀ y ∈ rfftMag x, 0 ≤ y := by
  intro y hy
  simp only [rfftMag, List.mem_map] at hy
  obtain ⟨k, -, rfl⟩ := hy
  exact Complex.abs.nonneg _

theorem npLinspace_length (a b : ℝ) (num : ℕ) : (npLinspace a b num).length = num := by
  rw [npLinspace, List.length_map, List.length_range]

theorem npLogspace_length (a b : ℝ) (num : ℕ) : (npLogspace a b num).length = num := by
  rw [npLogspace, List.length_map, npLinspace_length]

theorem linIndices_length (slen : ℕ) : (linIndices slen).length = N_BINS := by
  simp [linIndices, npLinspace_length]

theorem N_BINS_le_binIndices_length (slen : ℕ) : N_BINS ≤ (binIndices slen).length := by
  unfold binIndices
  by_cases h : (npUnique (logIndicesRaw slen)).length < N_BINS
  · simp [h, linIndices_length]
  · simpa [h] using not_lt.mp h

theorem getD_nonneg (l : List ℝ) (h : ∀ x ∈ l, 0 ≤ x) (i : ℕ) : 0 ≤ l.getD i 0 := by
  by_cases hi : i < l.length
  · rw [List.getD_eq_getElem l 0 hi]
    exact h _ (List.getElem_mem hi)
  · rw [List.getD_eq_default l 0 (not_lt.mp hi)]

theorem le_npMax_of_mem {l : List ℝ} {x : ℝ} (hx : x ∈ l) : x ≤ npMax l := by
  induction l with
  | nil => cases hx
  | cons a t ih =>
    rcases List.mem_cons.mp hx with rfl | hx
    · exact le_max_left _ _
    · exact le_trans (ih hx) (le_max_right _ _)

theorem npMax_nonneg (l : List ℝ) : 0 ≤ npMax l := by
  induction l with
  | nil => simp [npMax]
  | cons a t ih => exact le_trans ih (le_max_right _ _)

theorem normalizeCompress_spec (B : List ℝ) (hnn : ∀ x ∈ B, 0 ≤ x) :
    ((if 0 < npMax B then (B.map (· / npMax B)).map (fun x => x ^ (0.6 : ℝ)) else B).length
        = B.length) ∧
    ∀ x ∈ (if 0 < npMax B then (B.map (· / npMax B)).map (fun x => x ^ (0.6 : ℝ)) else B),
      0 ≤ x ∧ x ≤ 1 := by
  by_cases hm : 0 < npMax B
  · rw [if_pos hm]
    refine ⟨by simp, fun x hx => ?_⟩
    simp only [List.map_map, List.mem_map, Function.comp] at hx
    obtain ⟨y, hy, rfl⟩ := hx
    have h0 : 0 ≤ y / npMax B := div_nonneg (hnn y hy) hm.le
    have h1 : y / npMax B ≤ 1 := (div_le_one hm).mpr (le_npMax_of_mem hy)
    exact ⟨Real.rpow_nonneg h0 _, Real.rpow_le_one h0 h1 (by norm_num)⟩
  · rw [if_neg hm]
    refine ⟨rfl, fun x hx => ?_⟩
    have h0 := hnn x hx
    have hx0 : x = 0 := le_antisymm ((le_npMax_of_mem hx).trans (not_lt.mp hm)) h0
    simp [hx0]

theorem analyze_eq_of_block (samples : List ℝ) (h : samples.length = BLOCK_SIZE) :
    analyze samples =
      (fun B : List ℝ =>
        if 0 < npMax B then (B.map (· / npMax B)).map (fun x => x ^ (0.6 : ℝ)) else B)
      (((binIndices 513).take N_BINS).map fun i =>
        (rfftMag (List.zipWith (· * ·) samples (npHanning samples.length))).getD i 0) := by
  have h1 : (List.zipWith (· * ·) samples (npHanning samples.length)).length = 1024 := by
    simp [List.length_zipWith, npHanning_length, h, BLOCK_SIZE]
  have h2 : (rfftMag (List.zipWith (· * ·) samples (npHanning samples.length))).length = 513 := by
    rw [rfftMag_length, h1]
  simp only [analyze, h2]
  rw [if_neg (show ¬ (513 ≤ N_BINS) by norm_num [N_BINS])]

/-- C1: for every input block of exactly `BLOCK_SIZE = 1024` samples, the
analysis step (windowing, rfft magnitude, binning, normalization, compression)
produces a vector of exactly `N_BINS = 16` values, each nonnegative and at
most `1`. -/
theorem analyze_block_length_and_range (samples : List ℝ)
    (h : samples.length = BLOCK_SIZE) :
    (analyze samples).length = N_BINS ∧ ∀ x ∈ analyze samples, 0 ≤ x ∧ x ≤ 1 := by
  rw [analyze_eq_of_block samples h]
  set S := rfftMag (List.zipWith (· * ·) samples (npHanning samples.length)) with hS
  set B := ((binIndices 513).take N_BINS).map (fun i => S.getD i 0) with hB
  have hBnn : ∀ x ∈ B, 0 ≤ x := by
    intro x hx
    rw [hB] at hx
    simp only [List.mem_map] at hx
    obtain ⟨i, -, rfl⟩ := hx
    exact getD_nonneg S (rfftMag_nonneg _) i
  have hBlen : B.length = N_BINS := by
    rw [hB, List.length_map, List.length_take,
      min_eq_left (N_BINS_le_binIndices_length 513)]
  obtain ⟨hlen, hmem⟩ := normalizeCompress_spec B hBnn
  exact ⟨by rw [hlen, hBlen], hmem⟩

/-- C1 witness: the theorem applied to the all-zero block of 1024 samples. -/
theorem analyze_block_length_and_range_witness :
    (analyze (List.replicate 1024 (0 : ℝ))).length = N_BINS ∧
      ∀ x ∈ analyze (List.replicate 1024 (0 : ℝ)), 0 ≤ x ∧ x ≤ 1 :=
  analyze_block_length_and_range (List.replicate 1024 (0 : ℝ))
    (by rw [List.length_replicate, BLOCK_SIZE])

theorem getD_replicate_zero (n i : ℕ) : (List.replicate n (0 : ℝ)).getD i 0 = 0 := by
  by_cases hi : i < n
  · rw [List.getD_eq_getElem _ 0 (by simpa using hi)]
    simp
  · exact List.getD_eq_default _ 0 (by simpa using not_lt.mp hi)

theorem zipWith_mul_replicate_zero (n : ℕ) (l : List ℝ) :
    List.zipWith (· * ·) (List.replicate n (0 : ℝ)) l = List.replicate (min n l.length) 0 := by
  induction n generalizing l with
  | zero => simp
  | succ m ih =>
    cases l with
    | nil => simp
    | cons a t =>
      simp only [List.replicate_succ, List.zipWith_cons_cons, zero_mul, List.length_cons, ih,
        Nat.succ_min_succ]

theorem rfftMag_replicate_zero (n : ℕ) :
    rfftMag (List.replicate n (0 : ℝ)) = List.replicate (n / 2 + 1) 0 := by
  rw [rfftMag]
  have hf : ∀ k ∈ List.range ((List.replicate n (0 : ℝ)).length / 2 + 1),
      Complex.abs (∑ m ∈ Finset.range (List.replicate n (0 : ℝ)).length,
        ((List.replicate n (0 : ℝ)).getD m 0 : ℂ) *
          Complex.exp (-(2 * Real.pi * k * m / (List.replicate n (0 : ℝ)).length) * Complex.I))
        = 0 := by
    intro k _
    have hsum : (∑ m ∈ Finset.range (List.replicate n (0 : ℝ)).length,
        ((List.replicate n (0 : ℝ)).getD m 0 : ℂ) *
          Complex.exp (-(2 * Real.pi * k * m / (List.replicate n (0 : ℝ)).length) * Complex.I))
        = 0 := by
      apply Finset.sum_eq_zero
      intro m _
      rw [getD_replicate_zero]
      simp
    rw [hsum]
    simp
  rw [List.map_congr_left hf, List.map_const']
  simp

theorem npMax_replicate_zero (n : ℕ) : npMax (List.replicate n (0 : ℝ)) = 0 := by
  induction n with
  | zero => simp [npMax]
  | succ m ih =>
    rw [List.replicate_succ]
    show max 0 (npMax (List.replicate m (0 : ℝ))) = 0
    rw [ih, max_self]

/-- C5: an all-zero input block of `BLOCK_SIZE` samples yields an all-zero
spectrum vector: the max of the binned values is `0`, the guarded
normalization branch is skipped, and all `N_BINS` bins stay zero. -/
theorem analyze_silence_all_zero :
    analyze (List.replicate BLOCK_SIZE (0 : ℝ)) = List.replicate N_BINS 0 := by
  rw [analyze_eq_of_block _ (by rw [List.length_replicate])]
  have hwin : List.zipWith (· * ·) (List.replicate BLOCK_SIZE (0 : ℝ))
      (npHanning (List.replicate BLOCK_SIZE (0 : ℝ)).length) = List.replicate 1024 0 := by
    rw [zipWith_mul_replicate_zero, npHanning_length, List.length_replicate]
    rw [show (BLOCK_SIZE : ℕ) = 1024 from rfl, min_self]
  rw [hwin, rfftMag_replicate_zero]
  have hB : ((binIndices 513).take N_BINS).map
      (fun i => (List.replicate (1024 / 2 + 1) (0 : ℝ)).getD i 0)
      = List.replicate N_BINS 0 := by
    have : ∀ i ∈ (binIndices 513).take N_BINS,
        (List.replicate (1024 / 2 + 1) (0 : ℝ)).getD i 0 = 0 :=
      fun i _ => getD_replicate_zero _ i
    rw [List.map_congr_left this, List.map_const']
    rw [List.length_take, min_eq_left (N_BINS_le_binIndices_length 513)]
  simp only [hB]
  rw [if_neg (by rw [npMax_replicate_zero]; exact lt_irrefl 0)]

theorem publishStep_smoothing (P V : List ℝ)
    (hne : ∃ x ∈ P, x ≠ 0) :
    publishStep P V =
      List.zipWith (fun v p => (0.3 : ℝ) * v + (1 - 0.3) * p) V P ++ P.drop V.length := by
  simp [publishStep, hne]

theorem publishStep_replace (P V : List ℝ)
    (hz : ¬ ∃ x ∈ P, x ≠ 0) :
    publishStep P V = V ++ P.drop V.length := by
  simp only [publishStep]
  rw [if_neg hz]

theorem exists_of_mem_zipWith {α β γ : Type} {f : α → β → γ} :
    ∀ {l₁ : List α} {l₂ : List β} {x : γ}, x ∈ List.zipWith f l₁ l₂ →
      ∃ a ∈ l₁, ∃ b ∈ l₂, x = f a b := by
  intro l₁
  induction l₁ with
  | nil => intro l₂ x hx; simp at hx
  | cons a t ih =>
    intro l₂ x hx
    cases l₂ with
    | nil => simp at hx
    | cons b t₂ =>
      rcases List.mem_cons.mp hx with rfl | hx
      · exact ⟨a, List.mem_cons_self a t, b, List.mem_cons_self b t₂, rfl⟩
      · obtain ⟨a', ha', b', hb', rfl⟩ := ih hx
        exact ⟨a', List.mem_cons_of_mem _ ha', b', List.mem_cons_of_mem _ hb', rfl⟩

/-- C3: for every previously published vector `P` that is not all-zero and
every new analyzed vector `V` (both of length `N_BINS`), the publish step
updates each bin to exactly `0.3 * V[i] + 0.7 * P[i]` (`alpha` fixed at
`0.3`). -/
theorem publish_smoothing_law (P V : List ℝ)
    (hP : P.length = N_BINS) (hV : V.length = N_BINS)
    (hne : ∃ x ∈ P, x ≠ 0) :
    publishStep P V = List.zipWith (fun v p => (0.3 : ℝ) * v + (0.7 : ℝ) * p) V P := by
  rw [publishStep_smoothing P V hne]
  have hdrop : P.drop V.length = [] := by
    rw [hV, ← hP, List.drop_length]
  rw [hdrop, List.append_nil]
  have hfun : (fun v p => (0.3 : ℝ) * v + (1 - 0.3) * p)
      = fun v p => (0.3 : ℝ) * v + (0.7 : ℝ) * p := by
    funext v p; norm_num
  rw [hfun]

/-- C3 witness: smoothing law at `P = [1,…,1]`, `V = [1/2,…,1/2]`. -/
theorem publish_smoothing_law_witness :
    publishStep (List.replicate 16 (1 : ℝ)) (List.replicate 16 (1 / 2 : ℝ)) =
      List.zipWith (fun v p => (0.3 : ℝ) * v + (0.7 : ℝ) * p)
        (List.replicate 16 (1 / 2 : ℝ)) (List.replicate 16 (1 : ℝ)) :=
  publish_smoothing_law _ _ (by simp [N_BINS]) (by simp [N_BINS])
    ⟨1, by simp, by norm_num⟩

/-- C4: if the previously published vector is all-zero, the publish step
stores the new vector directly (bypassing smoothing). -/
theorem publish_first_replace (P V : List ℝ)
    (hP : P.length = N_BINS) (hV : V.length = N_BINS)
    (hz : ∀ x ∈ P, x = 0) :
    publishStep P V = V := by
  rw [publishStep_replace P V (by push_neg; exact hz)]
  have hdrop : P.drop V.length = [] := by
    rw [hV, ← hP, List.drop_length]
  rw [hdrop, List.append_nil]

/-- C4 witness: first publish at `P = [0,…,0]`, `V = [3/4,…,3/4]`. -/
theorem publish_first_replace_witness :
    publishStep (List.replicate 16 (0 : ℝ)) (List.replicate 16 (3 / 4 : ℝ)) =
      List.replicate 16 (3 / 4 : ℝ) :=
  publish_first_replace _ _ (by simp [N_BINS]) (by simp [N_BINS])
    (fun x hx => List.eq_of_mem_replicate hx)

/-- C10: the shared vector invariant (length `N_BINS`, all entries in
`[0,1]`) holds for the zero initialization and is preserved by every publish
(replacement writes at most `N_BINS` values in `[0,1]`; smoothing writes a
convex combination of two values in `[0,1]`). -/
theorem fft_data_invariant_preserved :
    fftInvariant initFftData ∧
    ∀ P V : List ℝ, fftInvariant P → V.length ≤ N_BINS →
      (∀ x ∈ V, 0 ≤ x ∧ x ≤ 1) → fftInvariant (publishStep P V) := by
  constructor
  · refine ⟨by simp [initFftData], fun x hx => ?_⟩
    rw [List.eq_of_mem_replicate hx]
    norm_num
  · intro P V hP hVlen hV
    obtain ⟨hPlen, hPmem⟩ := hP
    by_cases hne : ∃ x ∈ P, x ≠ 0
    · rw [publishStep_smoothing P V hne]
      constructor
      · rw [List.length_append, List.length_zipWith, List.length_drop, hPlen]
        omega
      · intro x hx
        rcases List.mem_append.mp hx with hx | hx
        · obtain ⟨v, hv, p, hp, rfl⟩ := exists_of_mem_zipWith hx
          obtain ⟨hv0, hv1⟩ := hV v hv
          obtain ⟨hp0, hp1⟩ := hPmem p hp
          constructor <;> nlinarith
        · exact hPmem x (List.mem_of_mem_drop hx)
    · rw [publishStep_replace P V hne]
      constructor
      · rw [List.length_append, List.length_drop, hPlen]
        omega
      · intro x hx
        rcases List.mem_append.mp hx with hx | hx
        · exact hV x hx
        · exact hPmem x (List.mem_of_mem_drop hx)

/-- C10 witness: the invariant at the initial vector and at one concrete
publish. -/
theorem fft_data_invariant_preserved_witness :
    fftInvariant initFftData ∧
      fftInvariant (publishStep (List.replicate 16 (1 / 2 : ℝ)) (List.replicate 16 (1 : ℝ))) :=
  ⟨fft_data_invariant_preserved.1,
    fft_data_invariant_preserved.2 _ _
      ⟨by simp [N_BINS], fun x hx => by rw [List.eq_of_mem_replicate hx]; norm_num⟩
      (by simp [N_BINS])
      (fun x hx => by rw [List.eq_of_mem_replicate hx]; norm_num)⟩

/-!
## Device selection (`_find_audio_device`, lines 63–92)

Enumeration is modelled as a list of device records; `get_device_info_by_index`
raising for an index is the `queryFails` flag (the code skips such devices
with `continue`).  `get_default_input_device_info` either reports an index or
raises (`defaultIndex = none`).  The `_pa is None` early return is the
`paPresent` argument.
-/

structure Device where
  name : List Char
  maxInputChannels : ℕ
  queryFails : Bool

structure AudioEnv where
  devices : List Device
  defaultIndex : Option ℕ

/-- The Python `needle in hay` substring test on lists of characters. -/
def containsSub (needle : List Char) : List Char → Bool
  | [] => needle.isEmpty
  | c :: rest => needle.isPrefixOf (c :: rest) || containsSub needle rest

/-- The per-device test of the preferred-device loop (line 75):
`(pulse in name or pipewire in name) and maxInputChannels > 0`,
on the lowercased name, with a failing info query skipping the device. -/
def usableDevice (d : Device) : Bool :=
  !d.queryFails &&
    ((containsSub "pulse".toList (d.name.map Char.toLower) ||
      containsSub "pipewire".toList (d.name.map Char.toLower)) &&
     decide (0 < d.maxInputChannels))

/-- The `for i in range(device_count)` loop: first index whose device passes
`usableDevice`. -/
def findFirstUsable : List Device → ℕ → Option ℕ
  | [], _ => none
  | d :: rest, i => if usableDevice d then some i else findFirstUsable rest (i + 1)

/-- `_find_audio_device()`: preferred pulse/pipewire input device first, then
the platform default input device, else `None`. -/
def findAudioDevice (env : AudioEnv) (paPresent : Bool) : Option ℕ :=
  if paPresent then
    match findFirstUsable env.devices 0 with
    | some i => some i
    | none => env.defaultIndex
  else none

theorem findFirstUsable_eq_none (l : List Device) (i : ℕ) :
    findFirstUsable l i = none ↔ ∀ d ∈ l, usableDevice d = false := by
  induction l generalizing i with
  | nil => simp [findFirstUsable]
  | cons d rest ih =>
    by_cases hd : usableDevice d
    · simp [findFirstUsable, hd]
    · simp only [findFirstUsable, if_neg hd, ih, List.mem_cons]
      constructor
      · rintro h x (rfl | hx)
        · exact Bool.eq_false_iff.mpr hd
        · exact h x hx
      · intro h x hx
        exact h x (Or.inr hx)

theorem findFirstUsable_eq_some (l : List Device) (i j : ℕ)
    (h : findFirstUsable l i = some j) :
    ∃ k, ∃ hk : k < l.length, j = i + k ∧
      usableDevice (l.get ⟨k, hk⟩) = true ∧
      ∀ d ∈ l.take k, usableDevice d = false := by
  induction l generalizing i with
  | nil => simp [findFirstUsable] at h
  | cons d rest ih =>
    by_cases hd : usableDevice d
    · rw [findFirstUsable, if_pos hd] at h
      refine ⟨0, by simp, by simpa using (Option.some_injective _ h).symm, hd, by simp⟩
    · rw [findFirstUsable, if_neg hd] at h
      obtain ⟨k, hk, hj, hu, hall⟩ := ih (i + 1) h
      refine ⟨k + 1, by simpa using hk, by omega, hu, ?_⟩
      intro x hx
      rw [List.take_succ_cons] at hx
      rcases List.mem_cons.mp hx with rfl | hx
      · exact Bool.eq_false_iff.mpr hd
      · exact hall x hx

/-- C9: device selection policy, first match wins.  If some enumerated device
passes the per-device test (query succeeds, lowercased name contains "pulse"
or "pipewire", at least one input channel), the selector returns the first
the index of the first such device — devices whose info query fails are skipped without
aborting the search.  If no device passes, the selector returns exactly what
the platform-default lookup yields (its index if it exists, otherwise no
device found). -/
theorem find_audio_device_policy (env : AudioEnv) :
    ((∃ d ∈ env.devices, usableDevice d = true) →
      ∃ k, ∃ hk : k < env.devices.length,
        findAudioDevice env true = some k ∧
        usableDevice (env.devices.get ⟨k, hk⟩) = true ∧
        ∀ d ∈ env.devices.take k, usableDevice d = false) ∧
    ((∀ d ∈ env.devices, usableDevice d = false) →
      findAudioDevice env true = env.defaultIndex) := by
  constructor
  · rintro ⟨d, hd, hud⟩
    cases h : findFirstUsable env.devices 0 with
    | none =>
      rw [findFirstUsable_eq_none] at h
      rw [h d hd] at hud
      cases hud
    | some j =>
      obtain ⟨k, hk, hj, hu, hall⟩ := findFirstUsable_eq_some _ _ _ h
      refine ⟨k, hk, ?_, hu, hall⟩
      rw [findAudioDevice, if_pos rfl, h]
      show some j = some k
      rw [hj, Nat.zero_add]
  · intro hall
    rw [findAudioDevice, if_pos rfl, (findFirstUsable_eq_none _ _).mpr hall]

/-- C9 witness: a concrete enumeration where the second device is a
pulse-named input device; the selector picks index 1 and skipped index 0. -/
theorem find_audio_device_policy_witness :
    (∃ d ∈ (AudioEnv.mk
        [⟨"HDA Intel PCH".toList, 2, false⟩, ⟨"PulseAudio Monitor".toList, 2, false⟩]
        (some 0)).devices, usableDevice d = true) ∧
    ∃ k, ∃ hk : k < (AudioEnv.mk
        [⟨"HDA Intel PCH".toList, 2, false⟩, ⟨"PulseAudio Monitor".toList, 2, false⟩]
        (some 0)).devices.length,
      findAudioDevice (AudioEnv.mk
        [⟨"HDA Intel PCH".toList, 2, false⟩, ⟨"PulseAudio Monitor".toList, 2, false⟩]
        (some 0)) true = some k ∧
      usableDevice ((AudioEnv.mk
        [⟨"HDA Intel PCH".toList, 2, false⟩, ⟨"PulseAudio Monitor".toList, 2, false⟩]
        (some 0)).devices.get ⟨k, hk⟩) = true ∧
      ∀ d ∈ (AudioEnv.mk
        [⟨"HDA Intel PCH".toList, 2, false⟩, ⟨"PulseAudio Monitor".toList, 2, false⟩]
        (some 0)).devices.take k, usableDevice d = false :=
  ⟨by decide,
    (find_audio_device_policy (AudioEnv.mk
        [⟨"HDA Intel PCH".toList, 2, false⟩, ⟨"PulseAudio Monitor".toList, 2, false⟩]
        (some 0))).1 (by decide)⟩

/-!
## Start operator (`AUDIOFFT_OT_Start.execute`, lines 389–414)

```
def execute(self, context):
    if not DEPS_AVAILABLE:
        report ERROR "numpy and pyaudio required"; return CANCELLED
    if _running:
        report WARNING "Already running"; return CANCELLED
    zero the scene timestamp and the N_BINS scene bin properties
    _running = True
    spawn the daemon worker thread running _safe_audio_loop; add the timer
    report INFO "Started audio capture"; return RUNNING_MODAL
```

The worker thread performs device discovery asynchronously, so `execute`
itself never consults the audio environment — its model takes no `AudioEnv`.
-/

inductive RetVal where
  | finished
  | cancelled
  | runningModal
deriving DecidableEq

structure OpState where
  running : Bool
  fftData : List ℝ
  sceneBins : List ℝ

structure ExecOutcome where
  retval : RetVal
  reportLevel : String
  reportMsg : String
  state : OpState
  threadSpawned : Bool

/-- Model of `AUDIOFFT_OT_Start.execute`. -/
def startExecute (depsAvailable : Bool) (s : OpState) : ExecOutcome :=
  if !depsAvailable then
    ⟨.cancelled, "ERROR", "numpy and pyaudio required", s, false⟩
  else if s.running then
    ⟨.cancelled, "WARNING", "Already running", s, false⟩
  else
    ⟨.runningModal, "INFO", "Started audio capture",
      { running := true, fftData := s.fftData, sceneBins := List.replicate N_BINS 0 },
      true⟩

/-!
## Worker startup (`_safe_audio_loop`, lines 94–116)

The worker creates a PyAudio handle, runs device discovery, and if no device
is found prints "No suitable audio device found" and returns without opening
a stream (the `finally` cleanup then sees `_stream = None`).
-/

structure WorkerStart where
  streamOpened : Bool
  noDeviceLogged : Bool

/-- Startup phase of `_safe_audio_loop`: whether a stream gets opened and
whether the no-device message is logged. -/
def workerStartup (env : AudioEnv) : WorkerStart :=
  match findAudioDevice env true with
  | none => ⟨false, true⟩
  | some _ => ⟨true, false⟩

/-- C8: if a capture session is already running, a second start request is
rejected with the "Already running" warning and `CANCELLED`, with no side
effects: the state (run flag, published vector, scene bins) is returned
untouched and no worker thread is spawned. -/
theorem start_already_running_rejected (s : OpState) (h : s.running = true) :
    startExecute true s = ⟨.cancelled, "WARNING", "Already running", s, false⟩ := by
  simp [startExecute, h]

/-- C8 witness: the rejection at a concrete running state. -/
theorem start_already_running_rejected_witness :
    startExecute true ⟨true, [(1 : ℝ)], [(0 : ℝ)]⟩ =
      ⟨.cancelled, "WARNING", "Already running", ⟨true, [(1 : ℝ)], [(0 : ℝ)]⟩, false⟩ :=
  start_already_running_rejected ⟨true, [(1 : ℝ)], [(0 : ℝ)]⟩ rfl

/-- C6 counterexample: with an audio environment holding no devices and no
default input (so device discovery yields `NoDeviceFound`), a start request
from a non-running state still returns `RUNNING_MODAL`, reports the success
message "Started audio capture", and sets the run flag — the failure is not
surfaced synchronously to the caller and the session does start (only the
stream of the worker is never opened). -/
theorem start_no_device_counterexample :
    findAudioDevice ⟨[], none⟩ true = none ∧
    (workerStartup ⟨[], none⟩).streamOpened = false ∧
    (startExecute true ⟨false, initFftData, []⟩).retval = .runningModal ∧
    (startExecute true ⟨false, initFftData, []⟩).reportLevel = "INFO" ∧
    (startExecute true ⟨false, initFftData, []⟩).reportMsg = "Started audio capture" ∧
    (startExecute true ⟨false, initFftData, []⟩).state.running = true := by
  refine ⟨rfl, rfl, ?_, ?_, ?_, ?_⟩ <;> simp [startExecute]

/-- C6 amended: a `NoDeviceFound` result of enumeration is handled
asynchronously on the worker: the worker logs it and never opens a stream,
while the start request itself has already returned success
(`RUNNING_MODAL`, "Started audio capture") and set the run flag — the error
is not surfaced synchronously to the caller that requested start. -/
theorem start_no_device_async (env : AudioEnv) (s : OpState)
    (hdev : findAudioDevice env true = none) (hrun : s.running = false) :
    (workerStartup env).streamOpened = false ∧
    (workerStartup env).noDeviceLogged = true ∧
    (startExecute true s).retval = .runningModal ∧
    (startExecute true s).reportMsg = "Started audio capture" ∧
    (startExecute true s).state.running = true := by
  rw [workerStartup, hdev]
  refine ⟨rfl, rfl, ?_, ?_, ?_⟩ <;> simp [startExecute, hrun]

/-- C6 amended witness: the amended theorem at the empty environment and a
concrete stopped state. -/
theorem start_no_device_async_witness :
    (workerStartup ⟨[], none⟩).streamOpened = false ∧
    (workerStartup ⟨[], none⟩).noDeviceLogged = true ∧
    (startExecute true ⟨false, [], []⟩).retval = .runningModal ∧
    (startExecute true ⟨false, [], []⟩).reportMsg = "Started audio capture" ∧
    (startExecute true ⟨false, [], []⟩).state.running = true :=
  start_no_device_async ⟨[], none⟩ ⟨false, [], []⟩ rfl rfl

/-!
## Cleanup (`_cleanup_audio`, lines 45–61)

```
def _cleanup_audio():
    global _pa, _stream
    try:
        if _stream is not None:
            if not _stream.is_stopped():
                _stream.stop_stream()
            _stream.close()
            _stream = None
    except Exception as e:
        print(f"Stream cleanup error: ...")
    try:
        if _pa is not None:
            _pa.terminate()
            _pa = None
    except Exception as e:
        print(f"PyAudio cleanup error: ...")
```

`stop_stream()` and `close()` live in the SAME try-block: an exception from
`stop_stream` jumps to the handler, skipping `close()` and the
`_stream = None` reset.  Each of the two try-blocks swallows its exception
(only printing), so nothing propagates out of `_cleanup_audio`; the model is
a total function and a raising step is a Boolean flag on the handle. -/

structure StreamH where
  stopped : Bool
  stopFails : Bool
  closeFails : Bool
deriving DecidableEq

structure AudioRes where
  stream : Option StreamH
  pa : Bool
  paTerminateFails : Bool
deriving DecidableEq

structure CleanupTrace where
  stopAttempted : Bool
  closeAttempted : Bool
  streamErrorLogged : Bool
  terminateAttempted : Bool
  paErrorLogged : Bool
  stream : Option StreamH
  pa : Bool
deriving DecidableEq

/-- Model of `_cleanup_audio`.  `pa` stays set exactly when it was set and
`terminate()` raised (the raise skips `_pa = None`); likewise `stream` stays
set whenever `stop_stream()` or `close()` raised. -/
def cleanupAudio (r : AudioRes) : CleanupTrace :=
  let tA := r.pa
  let pLog := r.pa && r.paTerminateFails
  let paF := r.pa && r.paTerminateFails
  match r.stream with
  | none => ⟨false, false, false, tA, pLog, none, paF⟩
  | some st =>
    if st.stopped then
      if st.closeFails then ⟨false, true, true, tA, pLog, some st, paF⟩
      else ⟨false, true, false, tA, pLog, none, paF⟩
    else
      if st.stopFails then ⟨true, false, true, tA, pLog, some st, paF⟩
      else if st.closeFails then ⟨true, true, true, tA, pLog, some st, paF⟩
      else ⟨true, true, false, tA, pLog, none, paF⟩

/-- C7 counterexample: a stream that is not stopped and whose
`stop_stream()` raises — the stop step is attempted but the close step is
NOT attempted (the shared exception handler skips it), refuting "each step
is always attempted even if the other step failed". -/
theorem cleanup_stop_failure_skips_close :
    (cleanupAudio ⟨some ⟨false, true, false⟩, true, false⟩).stopAttempted = true ∧
    (cleanupAudio ⟨some ⟨false, true, false⟩, true, false⟩).closeAttempted = false ∧
    (cleanupAudio ⟨some ⟨false, true, false⟩, true, false⟩).streamErrorLogged = true := by
  decide

/-- C7 amended: cleanup failures are logged and never propagated, and the
PyAudio terminate step is always attempted even if the stream stop/close
step failed; but stop and close share a single guarded block, so a failing
stop skips the close step (close is attempted exactly when a stream exists
and either it was already stopped or its stop does not fail), and a failure
in either leaves the stream reference set. -/
theorem cleanup_guarded (r : AudioRes) :
    (cleanupAudio r).terminateAttempted = r.pa ∧
    (∀ st, r.stream = some st → st.stopped = false → st.stopFails = true →
      (cleanupAudio r).closeAttempted = false ∧
      (cleanupAudio r).streamErrorLogged = true ∧
      (cleanupAudio r).stream = some st) ∧
    ((cleanupAudio r).closeAttempted = true ↔
      ∃ st, r.stream = some st ∧ (st.stopped = true ∨ st.stopFails = false)) := by
  rcases r with ⟨s, pa, ptf⟩
  rcases s with _ | ⟨sp, sf, cf⟩
  · simp [cleanupAudio]
  · cases sp <;> cases sf <;> cases cf <;> simp [cleanupAudio]

/-- C7 amended witness: the amended theorem at the failing-stop stream. -/
theorem cleanup_guarded_witness :
    (cleanupAudio ⟨some ⟨false, true, false⟩, true, false⟩).terminateAttempted = true ∧
    (cleanupAudio ⟨some ⟨false, true, false⟩, true, false⟩).closeAttempted = false ∧
    (cleanupAudio ⟨some ⟨false, true, false⟩, true, false⟩).streamErrorLogged = true ∧
    (cleanupAudio ⟨some ⟨false, true, false⟩, true, false⟩).stream = some ⟨false, true, false⟩ := by
  have h := cleanup_guarded ⟨some ⟨false, true, false⟩, true, false⟩
  have h2 := h.2.1 ⟨false, true, false⟩ rfl rfl rfl
  exact ⟨h.1, h2.1, h2.2.1, h2.2.2⟩

/-!
## Concrete evaluation of the log-spaced binning indices for `slen = 513`

For a 1024-sample block the half-spectrum has length 513, so
`np.logspace(0, log10(512), 16)` has entries `512 ^ (k/15)`, `k = 0..15`.
`⌊512 ^ (k/15)⌋ = n` is settled by the integer comparisons
`n^15 ≤ 512^k < (n+1)^15`.
-/

theorem truncNat_eq (x : ℝ) (n : ℕ) (h1 : (n : ℝ) ≤ x) (h2 : x < (n : ℝ) + 1) :
    npTruncNat x = n := by
  rw [npTruncNat]
  exact (Nat.floor_eq_iff (le_trans (Nat.cast_nonneg n) h1)).mpr ⟨h1, h2⟩

theorem truncNat_rpow512 (k n : ℕ) (h1 : n ^ 15 ≤ 512 ^ k) (h2 : 512 ^ k < (n + 1) ^ 15) :
    npTruncNat ((512 : ℝ) ^ ((k : ℝ) / 15)) = n := by
  have hb0 : (0 : ℝ) ≤ 512 := by norm_num
  have hy0 : 0 ≤ (512 : ℝ) ^ ((k : ℝ) / 15) := Real.rpow_nonneg hb0 _
  have key : ((512 : ℝ) ^ ((k : ℝ) / 15)) ^ (15 : ℕ) = (512 : ℝ) ^ (k : ℕ) := by
    rw [← Real.rpow_natCast ((512 : ℝ) ^ ((k : ℝ) / 15)) 15, ← Real.rpow_mul hb0]
    rw [show (k : ℝ) / 15 * ((15 : ℕ) : ℝ) = (k : ℝ) by push_cast; field_simp]
    rw [Real.rpow_natCast]
  have h1r : ((n : ℝ)) ^ (15 : ℕ) ≤ ((512 : ℝ) ^ ((k : ℝ) / 15)) ^ (15 : ℕ) := by
    rw [key]; exact_mod_cast h1
  have h2r : ((512 : ℝ) ^ ((k : ℝ) / 15)) ^ (15 : ℕ) < ((n : ℝ) + 1) ^ (15 : ℕ) := by
    rw [key]; exact_mod_cast h2
  have hle : (n : ℝ) ≤ (512 : ℝ) ^ ((k : ℝ) / 15) :=
    (pow_le_pow_iff_left₀ (Nat.cast_nonneg n) hy0 (by norm_num)).mp h1r
  have hlt : (512 : ℝ) ^ ((k : ℝ) / 15) < (n : ℝ) + 1 :=
    (pow_lt_pow_iff_left₀ hy0 (by positivity) (by norm_num)).mp h2r
  exact truncNat_eq _ _ hle hlt

theorem logIndicesRaw_513_map :
    logIndicesRaw 513
      = (List.range 16).map fun (k : ℕ) => npTruncNat ((512 : ℝ) ^ ((k : ℝ) / 15)) := by
  rw [logIndicesRaw, npLogspace, npLinspace, List.map_map, List.map_map]
  rw [show N_BINS = 16 from rfl]
  refine List.map_congr_left ?_
  intro k hk
  simp only [Function.comp_apply]
  congr 1
  have hexp : (0 : ℝ) + (k : ℝ) * (Real.logb 10 (((513 : ℕ) : ℝ) - 1) - 0) / (((16 : ℕ) : ℝ) - 1)
      = Real.logb 10 512 * ((k : ℝ) / 15) := by
    norm_num
    ring
  rw [hexp, Real.rpow_mul (by norm_num : (0 : ℝ) ≤ 10)]
  rw [Real.rpow_logb (by norm_num) (by norm_num) (by norm_num)]

theorem range_16_eq :
    List.range 16 = [0, 1, 2, 3, 4, 5, 6, 7, 8, 9, 10, 11, 12, 13, 14, 15] := by
  decide

theorem logIndicesRaw_513 :
    logIndicesRaw 513 = [1, 1, 2, 3, 5, 8, 12, 18, 27, 42, 64, 97, 147, 222, 337, 512] := by
  rw [logIndicesRaw_513_map, range_16_eq]
  simp only [List.map_cons, List.map_nil]
  rw [truncNat_rpow512 0 1 (by norm_num) (by norm_num),
    truncNat_rpow512 1 1 (by norm_num) (by norm_num),
    truncNat_rpow512 2 2 (by norm_num) (by norm_num),
    truncNat_rpow512 3 3 (by norm_num) (by norm_num),
    truncNat_rpow512 4 5 (by norm_num) (by norm_num),
    truncNat_rpow512 5 8 (by norm_num) (by norm_num),
    truncNat_rpow512 6 12 (by norm_num) (by norm_num),
    truncNat_rpow512 7 18 (by norm_num) (by norm_num),
    truncNat_rpow512 8 27 (by norm_num) (by norm_num),
    truncNat_rpow512 9 42 (by norm_num) (by norm_num),
    truncNat_rpow512 10 64 (by norm_num) (by norm_num),
    truncNat_rpow512 11 97 (by norm_num) (by norm_num),
    truncNat_rpow512 12 147 (by norm_num) (by norm_num),
    truncNat_rpow512 13 222 (by norm_num) (by norm_num),
    truncNat_rpow512 14 337 (by norm_num) (by norm_num),
    truncNat_rpow512 15 512 (by norm_num) (by norm_num)]

theorem linIndices_513_map :
    linIndices 513
      = (List.range 16).map fun (k : ℕ) => npTruncNat ((k : ℝ) * 512 / 15) := by
  rw [linIndices, npLinspace, List.map_map]
  rw [show N_BINS = 16 from rfl]
  refine List.map_congr_left ?_
  intro k hk
  simp only [Function.comp_apply]
  congr 1
  norm_num

theorem linIndices_513 :
    linIndices 513
      = [0, 34, 68, 102, 136, 170, 204, 238, 273, 307, 341, 375, 409, 443, 477, 512] := by
  rw [linIndices_513_map, range_16_eq]
  simp only [List.map_cons, List.map_nil]
  rw [truncNat_eq (((0 : ℕ) : ℝ) * 512 / 15) 0 (by norm_num) (by norm_num),
    truncNat_eq (((1 : ℕ) : ℝ) * 512 / 15) 34 (by norm_num) (by norm_num),
    truncNat_eq (((2 : ℕ) : ℝ) * 512 / 15) 68 (by norm_num) (by norm_num),
    truncNat_eq (((3 : ℕ) : ℝ) * 512 / 15) 102 (by norm_num) (by norm_num),
    truncNat_eq (((4 : ℕ) : ℝ) * 512 / 15) 136 (by norm_num) (by norm_num),
    truncNat_eq (((5 : ℕ) : ℝ) * 512 / 15) 170 (by norm_num) (by norm_num),
    truncNat_eq (((6 : ℕ) : ℝ) * 512 / 15) 204 (by norm_num) (by norm_num),
    truncNat_eq (((7 : ℕ) : ℝ) * 512 / 15) 238 (by norm_num) (by norm_num),
    truncNat_eq (((8 : ℕ) : ℝ) * 512 / 15) 273 (by norm_num) (by norm_num),
    truncNat_eq (((9 : ℕ) : ℝ) * 512 / 15) 307 (by norm_num) (by norm_num),
    truncNat_eq (((10 : ℕ) : ℝ) * 512 / 15) 341 (by norm_num) (by norm_num),
    truncNat_eq (((11 : ℕ) : ℝ) * 512 / 15) 375 (by norm_num) (by norm_num),
    truncNat_eq (((12 : ℕ) : ℝ) * 512 / 15) 409 (by norm_num) (by norm_num),
    truncNat_eq (((13 : ℕ) : ℝ) * 512 / 15) 443 (by norm_num) (by norm_num),
    truncNat_eq (((14 : ℕ) : ℝ) * 512 / 15) 477 (by norm_num) (by norm_num),
    truncNat_eq (((15 : ℕ) : ℝ) * 512 / 15) 512 (by norm_num) (by norm_num)]

theorem binIndices_513_eq_lin : binIndices 513 = linIndices 513 := by
  simp only [binIndices]
  rw [logIndicesRaw_513]
  rw [if_pos (by decide)]

/-- C2 counterexample: for a half-spectrum of length 513 (the case this
program always hits with its 1024-sample blocks) rounding the 16
logarithmically spaced positions and removing duplicates yields only 15
unique indices, not 16 — `512^(0/15)` and `512^(1/15)` both truncate to 1 —
so the first half of the claim is false at this concrete input. -/
theorem log_indices_dedup_count_513 :
    (npUnique (logIndicesRaw 513)).length = 15 ∧
    (npUnique (logIndicesRaw 513)).length ≠ N_BINS := by
  rw [logIndicesRaw_513]
  exact ⟨by decide, by decide⟩

/-- C2 amended: for `N_BINS = 16` and a half-spectrum of length 513, the
rounded log-spaced positions are `[1,1,2,3,5,8,12,18,27,42,64,97,147,222,
337,512]`; deduplication yields only 15 unique, strictly increasing indices
(fewer than 16), so the binning falls back to the 16 evenly spaced indices
`[0,34,…,512]` over the same range, and exactly 16 values are produced. -/
theorem log_binning_falls_back_to_linear_513 :
    logIndicesRaw 513 = [1, 1, 2, 3, 5, 8, 12, 18, 27, 42, 64, 97, 147, 222, 337, 512] ∧
    npUnique (logIndicesRaw 513) = [1, 2, 3, 5, 8, 12, 18, 27, 42, 64, 97, 147, 222, 337, 512] ∧
    (npUnique (logIndicesRaw 513)).length < N_BINS ∧
    List.Sorted (· < ·) (npUnique (logIndicesRaw 513)) ∧
    binIndices 513
      = [0, 34, 68, 102, 136, 170, 204, 238, 273, 307, 341, 375, 409, 443, 477, 512] ∧
    (binIndices 513).length = N_BINS := by
  refine ⟨logIndicesRaw_513, ?_, ?_, ?_, ?_, ?_⟩
  · rw [logIndicesRaw_513]; decide
  · rw [logIndicesRaw_513]; decide
  · rw [logIndicesRaw_513]; decide
  · rw [binIndices_513_eq_lin, linIndices_513]
  · rw [binIndices_513_eq_lin, linIndices_513]; decide

end BlenderAudioFFT
